import Mathlib

/-!
Verification development for the read path of the nextdb versioned table store
(`src/nextdb/reader.py`).

The embedding translates the source functions into executable Lean definitions:

* the predicate algebra `NdbBool` mirrors the classes
  `NdbComputedBoolColumnOpArg` / `NdbComputedBoolColumnOpColumn` (the source
  stores the whole `NdbTable` inside a leaf; only its `_version_number` field is
  ever consulted by `_construct_where_clause`, so the leaf here carries that
  integer directly);
* `constructWhereClause`, `singleArgToString`, `invertPred`, `foldColumns` and
  `constructSql` are line-by-line translations of the corresponding methods;
* the merge engine `toPd` mirrors `NdbTable.to_pd`.  The duckdb execution
  engine and pandas are external collaborators; the generated per-fragment SQL
  (projection + predicate + `LEFT JOIN` / `IS NULL` anti-joins) is modelled by
  its documented relational meaning on concrete tables (`runWriteQuery`), and
  the pandas operations used by the source (`pd.concat` column-union alignment,
  `df[cols]` selection raising on a missing column, `df.assign`) are modelled
  by `pdConcat`, `selectColumnsPd`, `assignIndicator`.  A query whose generated
  text is syntactically malformed (an empty `ON` conjunction) is modelled as
  the error `Err.malformedQuery`; a reference to a column a relation does not
  have is `Err.missingColumn` (duckdb binder error / pandas `KeyError`).
-/

/-- Errors raised by the reader or by the modelled execution engine.  The
source raises `ValueError` / `NotImplementedError` / engine exceptions; the
constructors record which site raised. -/
inductive Err where
  | projectionWidens (names : List String)
  | crossTableReference
  | heterogeneousDeletes
  | unknownFragmentKind (kind : String)
  | malformedQuery
  | missingColumn (name : String)
  | typeMismatch
  | badArgShape
  | badOp
deriving DecidableEq, Repr

/-- A value stored in a column or used as a comparison literal.  The source's
literal types are `str`, `datetime`, `int`, `float`; strings and integers are
modelled (floats are out of scope of the claims), plus SQL NULL as produced by
outer joins / pandas reindexing. -/
inductive Value where
  | int (i : Int)
  | str (s : String)
  | null
deriving DecidableEq, Repr

/-- A materialized relation: ordered column names plus rows of values, the
model of a `pd.DataFrame`. -/
structure DataFrame where
  columns : List String
  rows : List (List Value)
deriving DecidableEq, Repr

/-- The `pd.DataFrame()` value used to initialise the accumulators and
returned when no partition produced a result. -/
def emptyFrame : DataFrame := ⟨[], []⟩

/-- `TableSchema.deduplication_keys`: `none` models the Python `None`. -/
structure TableSchema where
  deduplicationKeys : Option (List String)
deriving DecidableEq, Repr

/-- One manifest entry.  The source `DataFileEntry` stores
`(data_file_type, data_file_name)`; the file reader collaborator turns the
name into a relation, so the entry here carries the file's contents. -/
structure DataFileEntry where
  dataFileType : String
  contents : DataFrame
deriving DecidableEq, Repr

/-- The argument slot of a comparison leaf (`self._arg`): a single literal for
the six plain comparisons, a pair for BETWEEN, a list for IN. -/
inductive PredArg where
  | single (v : Value)
  | pair (a b : Value)
  | listArg (vs : List Value)
deriving DecidableEq, Repr

/-- The boolean predicate tree: `opArg` is `NdbComputedBoolColumnOpArg`
(a leaf `column op arg`, carrying the version number of its originating
handle), `opColumn` is `NdbComputedBoolColumnOpColumn` (an AND/OR node).
The operator is a string exactly as in the source. -/
inductive NdbBool where
  | opArg (version : Int) (columnName : String) (op : String) (arg : PredArg)
  | opColumn (a : NdbBool) (b : NdbBool) (op : String)
deriving DecidableEq, Repr

/-- A query-builder operation: `_SelectColumnsOp` / `_SelectRowsOp`. -/
inductive Op where
  | selectColumns (columnsToSelect : List String)
  | selectRows (filterColumn : NdbBool)
deriving DecidableEq, Repr

/-- The literal `_table_name_placeholder` string from the source. -/
def tableNamePlaceholder : String := "[!!__to_be_replaced_table_name__!!]"

/-- The literal `_indicator_column_name` string from the source. -/
def indicatorColumnName : String := "__ndb_reserved_indicator__"

/-- A single-quote character, used when rendering string literals. -/
def squote : String := String.singleton (Char.ofNat 39)

/-- A double-quote character, used when rendering column names. -/
def dquote : String := String.singleton (Char.ofNat 34)

/-- `NdbComputedBoolColumnOpArg._single_arg_to_string`: strings (and
timestamps) are wrapped in single quotes with no escaping; other literals
render by `str(...)`. -/
def singleArgToString : Value → String
  | .str s => squote ++ s ++ squote
  | .int i => toString i
  | .null => "None"

/-- Renders `tableNamePlaceholder."col"`. -/
def qualifiedColumn (col : String) : String :=
  tableNamePlaceholder ++ "." ++ dquote ++ col ++ dquote

/-- `NdbComputedBoolColumnOpArg._construct_where_clause` together with the
`NdbComputedBoolColumnOpColumn` case: renders the predicate against the
version number of the table being materialized, checking every visited leaf's
version first.  A leaf whose `arg` shape does not fit its operator models the
`TypeError` Python would raise on the corresponding indexing/iteration. -/
def constructWhereClause : NdbBool → Int → Except Err String
  | .opArg ver col op arg, targetVersion =>
      if ver ≠ targetVersion then
        Except.error Err.crossTableReference
      else if op = "BETWEEN" ∨ op = "NOT BETWEEN" then
        match arg with
        | .pair a b =>
            Except.ok ("(" ++ qualifiedColumn col ++ " " ++ op ++ " " ++
              singleArgToString a ++ " AND " ++ singleArgToString b ++ ")")
        | _ => Except.error Err.badArgShape
      else if op = "IN" ∨ op = "NOT IN" then
        match arg with
        | .listArg vs =>
            Except.ok ("(" ++ qualifiedColumn col ++ " " ++ op ++ " (" ++
              String.intercalate ", " (vs.map singleArgToString) ++ "))")
        | _ => Except.error Err.badArgShape
      else
        match arg with
        | .single v =>
            Except.ok ("(" ++ qualifiedColumn col ++ " " ++ op ++ " " ++
              singleArgToString v ++ ")")
        | _ => Except.error Err.badArgShape
  | .opColumn a b op, targetVersion => do
      let ca ← constructWhereClause a targetVersion
      let cb ← constructWhereClause b targetVersion
      Except.ok ("(" ++ ca ++ " " ++ op ++ " " ++ cb ++ ")")

/-- The operator complement table of
`NdbComputedBoolColumnOpArg.__invert__`; an unknown operator raises the
"Programming error" `ValueError`. -/
def invertOp (op : String) : Except Err String :=
  if op = "=" then Except.ok "!="
  else if op = "!=" then Except.ok "="
  else if op = ">" then Except.ok "<="
  else if op = "<=" then Except.ok ">"
  else if op = "<" then Except.ok ">="
  else if op = ">=" then Except.ok "<"
  else if op = "BETWEEN" then Except.ok "NOT BETWEEN"
  else if op = "NOT BETWEEN" then Except.ok "BETWEEN"
  else if op = "IN" then Except.ok "NOT IN"
  else if op = "NOT IN" then Except.ok "IN"
  else Except.error Err.badOp

/-- Structural negation: `__invert__` on both predicate classes (leaf
operator complement; De Morgan on AND/OR nodes). -/
def invertPred : NdbBool → Except Err NdbBool
  | .opArg ver col op arg => do
      let op' ← invertOp op
      Except.ok (.opArg ver col op' arg)
  | .opColumn a b op =>
      if op = "AND" then do
        let a' ← invertPred a
        let b' ← invertPred b
        Except.ok (.opColumn a' b' "OR")
      else if op = "OR" then do
        let a' ← invertPred a
        let b' ← invertPred b
        Except.ok (.opColumn a' b' "AND")
      else Except.error Err.badOp

/-- Is the operator one of the ten a comparison leaf can carry?  The public
constructors (`__eq__`, `__ne__`, `__lt__`, `__le__`, `__gt__`, `__ge__`,
`between`, `isin`) produce the first eight of the non-negated forms; the
negated forms arise from `__invert__`. -/
def validLeafOp (op : String) : Bool :=
  op = "=" || op = "!=" || op = ">" || op = "<=" || op = "<" || op = ">=" ||
    op = "BETWEEN" || op = "NOT BETWEEN" || op = "IN" || op = "NOT IN"

/-- A predicate reachable from the public constructors: every leaf carries one
of the ten comparison operators and every node is AND or OR. -/
def wellOpped : NdbBool → Bool
  | .opArg _ _ op _ => validLeafOp op
  | .opColumn a b op => (op = "AND" || op = "OR") && wellOpped a && wellOpped b

/-- The `_SelectColumnsOp` payloads of an op list, in append order
(`column_args` in `_construct_sql`). -/
def columnArgs (ops : List Op) : List (List String) :=
  ops.filterMap fun op =>
    match op with
    | .selectColumns cs => some cs
    | .selectRows _ => none

/-- The `_SelectRowsOp` payloads of an op list, in append order
(`row_args` in `_construct_sql`). -/
def rowArgs (ops : List Op) : List NdbBool :=
  ops.filterMap fun op =>
    match op with
    | .selectColumns _ => none
    | .selectRows p => some p

/-- The projection-folding loop of `_construct_sql` (lines 295–306): walk the
later column selections, failing on any name not present in the previous
selection, and keep the last selection. -/
def foldColumnsGo (curr : List String) : List (List String) → Except Err (List String)
  | [] => Except.ok curr
  | next :: more =>
      let offending := next.filter fun a => ¬ a ∈ curr
      if offending ≠ [] then Except.error (Err.projectionWidens offending)
      else foldColumnsGo next more

/-- Folds the ProjectColumns payloads: `none` means no projection op was given
(select all columns). -/
def foldColumns : List (List String) → Except Err (Option (List String))
  | [] => Except.ok none
  | first :: rest => do
      let last ← foldColumnsGo first rest
      Except.ok (some last)

/-- Renders the final `select_clause` of `_construct_sql` from the folded
column set. -/
def selectClauseString : Option (List String) → String
  | none => "SELECT " ++ tableNamePlaceholder ++ ".*"
  | some cs =>
      "SELECT " ++ String.intercalate ", " (cs.map qualifiedColumn)

/-- The select-clause half of `_construct_sql`. -/
def constructSelect (ops : List Op) : Except Err String :=
  (foldColumns (columnArgs ops)).map selectClauseString

/-- The plan compiler: the column fold plus the predicate handling of
`_construct_sql` (lines 311–323).  The source builds the left-associative
AND-conjunction of `row_args` into `curr_filter_column` — and then discards
it: line 323 renders `row_args[0]`.  The compiled predicate returned here is
therefore the first RestrictRows predicate only (validated by rendering it),
`none` when there is none (the literal `TRUE`). -/
def compilePlan (targetVersion : Int) (ops : List Op) :
    Except Err (Option (List String) × Option NdbBool) := do
  let sel ← foldColumns (columnArgs ops)
  match rowArgs ops with
  | [] => Except.ok (sel, none)
  | r :: _ => do
      let _ ← constructWhereClause r targetVersion
      Except.ok (sel, some r)

/-- `NdbTable._construct_sql`: the two clause strings. -/
def constructSql (targetVersion : Int) (ops : List Op) :
    Except Err (String × String) := do
  let (sel, pred) ← compilePlan targetVersion ops
  match pred with
  | none => Except.ok (selectClauseString sel, "TRUE")
  | some r => do
      let w ← constructWhereClause r targetVersion
      Except.ok (selectClauseString sel, w)

/-- Index of a column name in a column list (first occurrence). -/
def colIndex (cols : List String) (c : String) : Option Nat :=
  match cols with
  | [] => none
  | c2 :: rest => if c2 = c then some 0 else (colIndex rest c).map (· + 1)

/-- Reads a row's value in a named column; a name the relation does not have
is a binder error in the execution engine. -/
def rowGet (cols : List String) (row : List Value) (c : String) : Except Err Value :=
  match colIndex cols c with
  | none => Except.error (Err.missingColumn c)
  | some i => Except.ok (row.getD i Value.null)

/-- SQL comparison of two values: `none` when either side is NULL (the
comparison is unknown), an error when the types are incomparable. -/
def valueCmp : Value → Value → Except Err (Option Ordering)
  | .null, _ => Except.ok none
  | _, .null => Except.ok none
  | .int a, .int b => Except.ok (some (compare a b))
  | .str a, .str b => Except.ok (some (compare a b))
  | _, _ => Except.error Err.typeMismatch

/-- Truth of a comparison leaf operator on an already-compared pair, SQL
three-valued logic collapsed to Bool at the leaf (an unknown comparison never
satisfies a WHERE filter). -/
def cmpSatisfies (op : String) (c : Option Ordering) : Bool :=
  match c with
  | none => false
  | some o =>
      if op = "=" then o = Ordering.eq
      else if op = "!=" then o ≠ Ordering.eq
      else if op = "<" then o = Ordering.lt
      else if op = "<=" then o ≠ Ordering.gt
      else if op = ">" then o = Ordering.gt
      else if op = ">=" then o ≠ Ordering.lt
      else false

/-- Evaluates the compiled predicate on one row of the fragment relation: the
meaning of the generated `where_clause` in the execution engine.  The leaf's
version field plays no role here (it was checked at compile time). -/
def evalPredRow (cols : List String) (row : List Value) : NdbBool → Except Err Bool
  | .opArg _ col op arg => do
      let v ← rowGet cols row col
      if op = "BETWEEN" ∨ op = "NOT BETWEEN" then
        match arg with
        | .pair a b => do
            let c1 ← valueCmp v a
            let c2 ← valueCmp v b
            match c1, c2 with
            | some o1, some o2 =>
                let inRange := o1 ≠ Ordering.lt && o2 ≠ Ordering.gt
                Except.ok (if op = "BETWEEN" then inRange else !inRange)
            | _, _ => Except.ok false
        | _ => Except.error Err.badArgShape
      else if op = "IN" ∨ op = "NOT IN" then
        match arg with
        | .listArg vs => do
            let cs ← vs.mapM (valueCmp v)
            let hasEq := cs.contains (some Ordering.eq)
            let hasUnknown := cs.contains none
            if op = "IN" then Except.ok hasEq
            else Except.ok (!hasEq && !hasUnknown)
        | _ => Except.error Err.badArgShape
      else if op = "=" ∨ op = "!=" ∨ op = "<" ∨ op = "<=" ∨ op = ">" ∨ op = ">=" then
        match arg with
        | .single w => do
            let c ← valueCmp v w
            Except.ok (cmpSatisfies op c)
        | _ => Except.error Err.badArgShape
      else Except.error Err.malformedQuery
  | .opColumn a b op => do
      let ra ← evalPredRow cols row a
      let rb ← evalPredRow cols row b
      if op = "AND" then Except.ok (ra && rb)
      else if op = "OR" then Except.ok (ra || rb)
      else Except.error Err.malformedQuery

/-- Keeps the rows satisfying the predicate. -/
def filterRowsGo (p : NdbBool) (cols : List String) :
    List (List Value) → Except Err (List (List Value))
  | [] => Except.ok []
  | r :: rs => do
      let b ← evalPredRow cols r p
      let rest ← filterRowsGo p cols rs
      Except.ok (if b then r :: rest else rest)

/-- Applies the compiled `where_clause` (`none` is the literal `TRUE`). -/
def filterRows (pred : Option NdbBool) (cols : List String)
    (rows : List (List Value)) : Except Err (List (List Value)) :=
  match pred with
  | none => Except.ok rows
  | some p => filterRowsGo p cols rows

/-- Does a fragment row match an accumulator row on every join column?  The
meaning of the generated equi-join conjunction: a NULL on either side never
matches. -/
def rowMatchesOn (tcols : List String) (trow : List Value)
    (acols : List String) (arow : List Value) :
    List String → Except Err Bool
  | [] => Except.ok true
  | c :: cs => do
      let tv ← rowGet tcols trow c
      let av ← rowGet acols arow c
      let c1 ← valueCmp tv av
      let rest ← rowMatchesOn tcols trow acols arow cs
      Except.ok ((c1 = some Ordering.eq : Bool) && rest)

/-- Is there an accumulator row matching the fragment row on the join
columns? -/
def existsMatchingRow (tcols : List String) (trow : List Value)
    (acols : List String) (joinCols : List String) :
    List (List Value) → Except Err Bool
  | [] => Except.ok false
  | arow :: arows => do
      let m ← rowMatchesOn tcols trow acols arow joinCols
      let rest ← existsMatchingRow tcols trow acols joinCols arows
      Except.ok (m || rest)

/-- The `LEFT JOIN … WHERE indicator IS NULL` pattern of `to_pd`: keep the
fragment rows with no matching accumulator row on the join columns. -/
def antiJoinRows (tcols : List String) (acc : DataFrame) (joinCols : List String) :
    List (List Value) → Except Err (List (List Value))
  | [] => Except.ok []
  | r :: rs => do
      let m ← existsMatchingRow tcols r acc.columns joinCols acc.rows
      let rest ← antiJoinRows tcols acc joinCols rs
      Except.ok (if m then rest else r :: rest)

/-- Indices of the requested columns, failing on the first absent name. -/
def colIndices (cols : List String) : List String → Except Err (List Nat)
  | [] => Except.ok []
  | c :: cs =>
      match colIndex cols c with
      | none => Except.error (Err.missingColumn c)
      | some i => do
          let rest ← colIndices cols cs
          Except.ok (i :: rest)

/-- The projection of the generated `SELECT`: `none` keeps the fragment's
columns (`SELECT alias.*`), `some cs` keeps the listed columns in order. -/
def projectFrame (sel : Option (List String)) (cols : List String)
    (rows : List (List Value)) : Except Err DataFrame :=
  match sel with
  | none => Except.ok ⟨cols, rows⟩
  | some cs => do
      let idxs ← colIndices cols cs
      Except.ok ⟨cs, rows.map fun r => idxs.map fun i => r.getD i Value.null⟩

/-- Pandas column selection `df[cs]` (used for the Seen update
`df[deduplication_keys]`): a missing column is a `KeyError`. -/
def selectColumnsPd (df : DataFrame) (cs : List String) : Except Err DataFrame := do
  let idxs ← colIndices df.columns cs
  Except.ok ⟨cs, df.rows.map fun r => idxs.map fun i => r.getD i Value.null⟩

/-- Sets the reserved indicator column to the constant 1 (`assign` for Seen,
`d[_indicator_column_name] = 1` for deletes): overwritten in place when the
column already exists, appended at the end otherwise. -/
def assignIndicator (df : DataFrame) : DataFrame :=
  match colIndex df.columns indicatorColumnName with
  | some i => ⟨df.columns, df.rows.map fun r => r.set i (Value.int 1)⟩
  | none => ⟨df.columns ++ [indicatorColumnName],
      df.rows.map fun r => r ++ [Value.int 1]⟩

/-- Reindexes one row from its source column list to a target column list,
filling absent columns with NULL (pandas alignment). -/
def reindexRow (srcCols : List String) (row : List Value)
    (tgtCols : List String) : List Value :=
  tgtCols.map fun c =>
    match colIndex srcCols c with
    | some i => row.getD i Value.null
    | none => Value.null

/-- `pd.concat` of two frames: the columns are the union in order of first
appearance, rows are aligned with NULL fill. -/
def pdConcat (a b : DataFrame) : DataFrame :=
  let cols := a.columns ++ b.columns.filter fun c => ¬ c ∈ a.columns
  ⟨cols,
    a.rows.map (fun r => reindexRow a.columns r cols) ++
      b.rows.map (fun r => reindexRow b.columns r cols)⟩

/-- `pd.concat` of the collected partition results. -/
def concatAll : List DataFrame → DataFrame
  | [] => emptyFrame
  | f :: fs => fs.foldl pdConcat f

/-- Code-point lexicographic comparison of character lists: the order Python
`sorted` uses on strings. -/
def charListLeB : List Char → List Char → Bool
  | [], _ => true
  | _ :: _, [] => false
  | a :: as, b :: bs =>
      if a.val.toNat < b.val.toNat then true
      else if b.val.toNat < a.val.toNat then false
      else charListLeB as bs

/-- Lexicographic comparison of strings by code point. -/
def strLeB (a b : String) : Bool := charListLeB a.data b.data

/-- Column names in sorted order: the `sorted(...)` comparison of the
heterogeneous-deletes check. -/
def sortStrings (l : List String) : List String :=
  l.insertionSort fun a b => strLeB a b = true

/-- The two accumulator relations of the merge loop:
`deduplication_keys_seen` and `deletes`. -/
structure Accum where
  seen : DataFrame
  deletes : DataFrame
deriving DecidableEq, Repr

/-- The join part of the per-fragment WRITE query (the four branches of
`to_pd` lines 164–228, keyed on whether the Seen and Deletes accumulators
have rows): anti-join the fragment against the non-empty accumulators.  An
empty join-column conjunction renders an empty `ON` clause, which the engine
rejects as a parse error. -/
def writeQueryJoinedRows (keys : Option (List String)) (seen deletes : DataFrame)
    (frag : DataFrame) : Except Err (List (List Value)) :=
  if seen.rows.length = 0 then
    if deletes.rows.length = 0 then
      Except.ok frag.rows
    else
      let jc := deletes.columns.filter fun c => c ≠ indicatorColumnName
      if jc = [] then Except.error Err.malformedQuery
      else antiJoinRows frag.columns deletes jc frag.rows
  else
    match keys with
    | none => Except.error Err.malformedQuery
    | some ks =>
        if ks = [] then Except.error Err.malformedQuery
        else if deletes.rows.length = 0 then
          antiJoinRows frag.columns seen ks frag.rows
        else
          let jc := deletes.columns.filter fun c => c ≠ indicatorColumnName
          if jc = [] then Except.error Err.malformedQuery
          else do
            let rows' ← antiJoinRows frag.columns deletes jc frag.rows
            antiJoinRows frag.columns seen ks rows'

/-- The per-fragment query of the WRITE case of `to_pd`: the accumulator
anti-joins, then the user predicate, then the projection. -/
def runWriteQuery (keys : Option (List String)) (sel : Option (List String))
    (pred : Option NdbBool) (seen deletes : DataFrame) (frag : DataFrame) :
    Except Err DataFrame := do
  let rows1 ← writeQueryJoinedRows keys seen deletes frag
  let rows2 ← filterRows pred frag.columns rows1
  projectFrame sel frag.columns rows2

/-- Processes one manifest entry (one iteration of the `to_pd` loop),
returning the emitted partition result (for a WRITE) and the updated
accumulators.  The WRITE case extends Seen by the key projection of the
fragment result; the DELETE case appends the indicator, enforces the
column-set check — which the source only reaches when the accumulated
deletes already contain at least one row — and extends Deletes. -/
def stepFragment (keys : Option (List String)) (sel : Option (List String))
    (pred : Option NdbBool) (acc : Accum) (entry : DataFileEntry) :
    Except Err (Option DataFrame × Accum) :=
  if entry.dataFileType = "write" then do
    let df ← runWriteQuery keys sel pred acc.seen acc.deletes entry.contents
    match keys with
    | none => Except.ok (some df, ⟨acc.seen, acc.deletes⟩)
    | some ks => do
        let kdf ← selectColumnsPd df ks
        Except.ok (some df, ⟨pdConcat acc.seen (assignIndicator kdf), acc.deletes⟩)
  else if entry.dataFileType = "delete" then
    let d := assignIndicator entry.contents
    if acc.deletes.rows.length > 0 ∧
        sortStrings acc.deletes.columns ≠ sortStrings d.columns then
      Except.error Err.heterogeneousDeletes
    else
      Except.ok (none, ⟨acc.seen, pdConcat acc.deletes d⟩)
  else Except.error (Err.unknownFragmentKind entry.dataFileType)

/-- State of the materialize loop: the partition results collected so far (in
processing order, i.e. newest first) and the accumulators. -/
structure LoopState where
  results : List DataFrame
  seen : DataFrame
  deletes : DataFrame
deriving DecidableEq, Repr

/-- The fragment loop of `to_pd`, processing the given list front to back
(the caller passes the reversed manifest). -/
def mergeLoop (keys : Option (List String)) (sel : Option (List String))
    (pred : Option NdbBool) : List DataFileEntry → LoopState → Except Err LoopState
  | [], st => Except.ok st
  | f :: fs, st => do
      let (out, acc') ← stepFragment keys sel pred ⟨st.seen, st.deletes⟩ f
      mergeLoop keys sel pred fs
        ⟨(match out with
          | some df => st.results ++ [df]
          | none => st.results), acc'.seen, acc'.deletes⟩

/-- `NdbTable.to_pd`: compile the plan, walk the manifest newest-first with
the two accumulators, then reverse the collected partition results back into
manifest order and concatenate (the shapeless empty frame when no WRITE
produced a result). -/
def toPd (versionNumber : Int) (tableSchema : TableSchema)
    (dataList : List DataFileEntry) (ops : List Op) : Except Err DataFrame := do
  let (sel, pred) ← compilePlan versionNumber ops
  let st ← mergeLoop tableSchema.deduplicationKeys sel pred dataList.reverse
    ⟨[], emptyFrame, emptyFrame⟩
  let partitionResults := st.results.reverse
  if partitionResults.length = 0 then Except.ok emptyFrame
  else Except.ok (concatAll partitionResults)

/-- Reference recursion for the merge engine that emits the per-WRITE
partition results directly in manifest order (oldest first): the entries
after the head are processed first (they are newer), the head's result is
prepended.  `toPd` is proved equal to a fold of this recursion. -/
def mergeSpec (keys : Option (List String)) (sel : Option (List String))
    (pred : Option NdbBool) : List DataFileEntry → Accum →
    Except Err (List DataFrame × Accum)
  | [], acc => Except.ok ([], acc)
  | f :: fs, acc => do
      let (outs, acc') ← mergeSpec keys sel pred fs acc
      let (out, acc'') ← stepFragment keys sel pred acc' f
      Except.ok (out.toList ++ outs, acc'')

/-- Reduction of a monadic bind on a successful `Except` value. -/
@[simp] theorem exceptOkBind {ε α β : Type} (a : α) (f : α → Except ε β) :
    (Except.ok a : Except ε α) >>= f = f a := rfl

/-- Reduction of a monadic bind on a failed `Except` value. -/
@[simp] theorem exceptErrorBind {ε α β : Type} (e : ε) (f : α → Except ε β) :
    (Except.error e : Except ε α) >>= f = Except.error e := rfl

/-- C1: the claim says the compiled predicate clause is the left-associative
conjunction `R1 AND R2 … AND Rk` of all RestrictRows predicates and that a
row failing a later `Ri` never materializes.  The code builds that
conjunction into `curr_filter_column` (reader.py lines 318–322) and then
discards it: line 323 renders `row_args[0]`.  At the failing input — two
RestrictRows ops `a = 1` and `b = 2` — the compiled pair is the select-all
clause with the predicate of `R1` alone; rendering the conjunction the spec
describes gives a different clause; and a one-WRITE manifest whose row has
`a = 1, b = 3` (satisfying `R1`, failing `R2`) materializes that row. -/
theorem conjunction_discarded_at_compile :
    constructSql 1
      [Op.selectRows (NdbBool.opArg 1 "a" "=" (PredArg.single (Value.int 1))),
       Op.selectRows (NdbBool.opArg 1 "b" "=" (PredArg.single (Value.int 2)))]
      = Except.ok ("SELECT " ++ tableNamePlaceholder ++ ".*",
          "(" ++ qualifiedColumn "a" ++ " = 1)")
    ∧ constructWhereClause
        (NdbBool.opColumn (NdbBool.opArg 1 "a" "=" (PredArg.single (Value.int 1)))
          (NdbBool.opArg 1 "b" "=" (PredArg.single (Value.int 2))) "AND") 1
      = Except.ok ("((" ++ qualifiedColumn "a" ++ " = 1) AND (" ++
          qualifiedColumn "b" ++ " = 2))")
    ∧ toPd 1 ⟨none⟩ [⟨"write", ⟨["a", "b"], [[Value.int 1, Value.int 3]]⟩⟩]
        [Op.selectRows (NdbBool.opArg 1 "a" "=" (PredArg.single (Value.int 1))),
         Op.selectRows (NdbBool.opArg 1 "b" "=" (PredArg.single (Value.int 2)))]
      = Except.ok ⟨["a", "b"], [[Value.int 1, Value.int 3]]⟩ := by
  exact ⟨rfl, rfl, rfl⟩

/-- C4: the claim says a version mismatch in any RestrictRows predicate fails
compilation with CrossTableReference.  Because line 323 renders only
`row_args[0]`, leaves of the second and later predicates are never visited:
with `R1` bound to version 1 and `R2` bound to version 2, compiling against
version 1 succeeds, although rendering `R2` alone against version 1 does
fail with the cross-table error. -/
theorem cross_version_leaf_in_second_predicate_unchecked :
    constructSql 1
      [Op.selectRows (NdbBool.opArg 1 "a" "=" (PredArg.single (Value.int 1))),
       Op.selectRows (NdbBool.opArg 2 "b" "=" (PredArg.single (Value.int 2)))]
      = Except.ok ("SELECT " ++ tableNamePlaceholder ++ ".*",
          "(" ++ qualifiedColumn "a" ++ " = 1)")
    ∧ constructWhereClause (NdbBool.opArg 2 "b" "=" (PredArg.single (Value.int 2))) 1
      = Except.error Err.crossTableReference := by
  exact ⟨rfl, rfl⟩

/-- C5 counterexample: rendering a comparison leaf whose literal is the
string `O'Brien` (an unescaped single quote) does not fail at render time —
it produces a clause with the string inlined verbatim between quotes. -/
theorem unescaped_quote_renders_counterexample :
    constructWhereClause
      (NdbBool.opArg 1 "name" "=" (PredArg.single (Value.str ("O" ++ squote ++ "Brien")))) 1
      = Except.ok ("(" ++ qualifiedColumn "name" ++ " = " ++ squote ++ "O" ++
          squote ++ "Brien" ++ squote ++ ")") := by
  rfl

/-- C5 amended: `_single_arg_to_string` applies no escape policy and raises
no error: for every string literal `s` — single quotes included — the leaf
`col = s` renders to the clause that inlines `s` between single quotes. -/
theorem string_literal_inlined_unescaped (ver : Int) (col s : String) :
    constructWhereClause
      (NdbBool.opArg ver col "=" (PredArg.single (Value.str s))) ver
      = Except.ok ("(" ++ qualifiedColumn col ++ " = " ++ squote ++ s ++ squote ++ ")") := by
  simp [constructWhereClause, singleArgToString]
  apply String.ext
  simp [String.data_append]

/-- Double structural negation is the identity on predicates built from the
public constructors: leaf operators complement in involutive pairs and the
AND/OR De Morgan swap undoes itself. -/
theorem invertPred_invertPred (p : NdbBool) (h : wellOpped p = true) :
    ∃ q, invertPred p = Except.ok q ∧ invertPred q = Except.ok p := by
  induction p with
  | opArg ver col op arg =>
      simp only [wellOpped, validLeafOp, Bool.or_eq_true, decide_eq_true_eq,
        or_assoc] at h
      rcases h with h | h | h | h | h | h | h | h | h | h <;> subst h <;>
        exact ⟨_, rfl, rfl⟩
  | opColumn a b op iha ihb =>
      simp only [wellOpped, Bool.and_eq_true, Bool.or_eq_true,
        decide_eq_true_eq] at h
      obtain ⟨⟨hop, ha⟩, hb⟩ := h
      obtain ⟨qa, hqa1, hqa2⟩ := iha ha
      obtain ⟨qb, hqb1, hqb2⟩ := ihb hb
      rcases hop with h | h <;> subst h
      · refine ⟨NdbBool.opColumn qa qb "OR", ?_, ?_⟩
        · simp [invertPred, hqa1, hqb1, exceptOkBind]
        · simp [invertPred, hqa2, hqb2, exceptOkBind]
      · refine ⟨NdbBool.opColumn qa qb "AND", ?_, ?_⟩
        · simp [invertPred, hqa1, hqb1, exceptOkBind]
        · simp [invertPred, hqa2, hqb2, exceptOkBind]

/-- C9: for every predicate built from the public comparison constructors and
the AND/OR combinators, `NOT(NOT(p))` compiles to the same predicate clause
string as `p` (it is in fact structurally equal, so this holds whatever the
target version). -/
theorem not_not_compiles_to_same_clause (p : NdbBool) (v : Int)
    (h : wellOpped p = true) :
    (do
      let q ← invertPred p
      let r ← invertPred q
      constructWhereClause r v) = constructWhereClause p v := by
  obtain ⟨q, h1, h2⟩ := invertPred_invertPred p h
  simp [h1, h2, exceptOkBind]

/-- C9 witness: the double negation of `(a = 1) AND (b < 2)` compiles to the
same clause as the predicate itself. -/
theorem not_not_compiles_to_same_clause_witness :
    (do
      let q ← invertPred (NdbBool.opColumn
        (NdbBool.opArg 1 "a" "=" (PredArg.single (Value.int 1)))
        (NdbBool.opArg 1 "b" "<" (PredArg.single (Value.int 2))) "AND")
      let r ← invertPred q
      constructWhereClause r 1) = constructWhereClause (NdbBool.opColumn
        (NdbBool.opArg 1 "a" "=" (PredArg.single (Value.int 1)))
        (NdbBool.opArg 1 "b" "<" (PredArg.single (Value.int 2))) "AND") 1 :=
  not_not_compiles_to_same_clause _ 1 rfl

/-- Walking the projection fold along a chain of narrowing selections reaches
the last selection of the chain with no error. -/
theorem foldColumnsGo_chain (rest : List (List String)) (curr : List String)
    (h : List.Chain' (fun prev next => ∀ a ∈ next, a ∈ prev) (curr :: rest))
    (tail : List (List String)) :
    foldColumnsGo curr (rest ++ tail) =
      foldColumnsGo ((curr :: rest).getLast (by simp)) tail := by
  induction rest generalizing curr with
  | nil => simp
  | cons next more ih =>
      rw [List.chain'_cons] at h
      obtain ⟨hcn, hchain⟩ := h
      have hoff : next.filter (fun a => ¬ a ∈ curr) = [] := by
        simp only [List.filter_eq_nil_iff, decide_eq_true_eq, not_not]
        intro a ha
        exact hcn a ha
      simp only [List.cons_append, foldColumnsGo, hoff]
      simpa using ih next hchain

/-- C7: projection folding walks the ProjectColumns payloads in append order.
If every later selection is contained in its predecessor (the initial
"all" accepts any first selection), the fold succeeds and keeps exactly the
last selection, in its order (`none` — select-all — when there was no
ProjectColumns op); and at the first selection containing a name absent from
its predecessor the fold fails with the projection-widening error naming
exactly the offending names. -/
theorem projection_folding_spec (ops : List Op) :
    (List.Chain' (fun prev next => ∀ a ∈ next, a ∈ prev) (columnArgs ops) →
      foldColumns (columnArgs ops) = Except.ok (columnArgs ops).getLast?)
    ∧ (∀ pre p n suf, columnArgs ops = pre ++ p :: n :: suf →
        List.Chain' (fun prev next => ∀ a ∈ next, a ∈ prev) (pre ++ [p]) →
        n.filter (fun a => ¬ a ∈ p) ≠ [] →
        foldColumns (columnArgs ops) =
          Except.error (Err.projectionWidens (n.filter (fun a => ¬ a ∈ p)))) := by
  constructor
  · intro h
    match hcs : columnArgs ops with
    | [] => rfl
    | first :: rest =>
        rw [hcs] at h
        have := foldColumnsGo_chain rest first h []
        simp only [List.append_nil] at this
        simp only [foldColumns, this, foldColumnsGo, exceptOkBind]
        rw [List.getLast?_eq_getLast _ (by simp)]
  · intro pre p n suf hcs hchain hoff
    rw [hcs]
    match pre, hchain with
    | [], _ =>
        simp only [List.nil_append, foldColumns, foldColumnsGo, hoff,
          if_pos hoff, exceptErrorBind]
    | c :: pre', hchain =>
        simp only [List.cons_append] at hchain ⊢
        have hsplit : pre' ++ p :: n :: suf = (pre' ++ [p]) ++ (n :: suf) := by
          simp
        simp only [foldColumns, hsplit]
        rw [foldColumnsGo_chain (pre' ++ [p]) c (by simpa using hchain)]
        have hlast : ((c :: (pre' ++ [p])).getLast (by simp)) = p := by
          simp
        rw [hlast]
        simp only [foldColumnsGo, hoff, if_pos hoff, exceptErrorBind]

/-- C7 witness: the fold keeps the last narrowing selection, and widening
`["a"]` to `["a", "c"]` fails naming the offending column `c`. -/
theorem projection_folding_spec_witness :
    foldColumns (columnArgs [Op.selectColumns ["a", "b"], Op.selectColumns ["b"]])
      = Except.ok (some ["b"])
    ∧ foldColumns (columnArgs [Op.selectColumns ["a"], Op.selectColumns ["a", "c"]])
      = Except.error (Err.projectionWidens ["c"]) := by
  constructor
  · exact (projection_folding_spec
      [Op.selectColumns ["a", "b"], Op.selectColumns ["b"]]).1
      (by simp [columnArgs, List.chain'_cons])
  · exact (projection_folding_spec
      [Op.selectColumns ["a"], Op.selectColumns ["a", "c"]]).2 [] ["a"] ["a", "c"]
      [] rfl (by simp) (by decide)

/-- The fragment loop splits over list concatenation. -/
theorem mergeLoop_append (keys : Option (List String)) (sel : Option (List String))
    (pred : Option NdbBool) (a b : List DataFileEntry) (st : LoopState) :
    mergeLoop keys sel pred (a ++ b) st =
      (mergeLoop keys sel pred a st) >>= mergeLoop keys sel pred b := by
  induction a generalizing st with
  | nil => simp [mergeLoop]
  | cons f fs ih =>
      simp only [List.cons_append, mergeLoop]
      cases hstep : stepFragment keys sel pred ⟨st.seen, st.deletes⟩ f with
      | error e => simp
      | ok oa => cases oa; simp [ih]

/-- Peeling the newest manifest entry off the reference recursion: the last
entry of the list is processed first, against the incoming accumulators. -/
theorem mergeSpec_snoc (keys : Option (List String)) (sel : Option (List String))
    (pred : Option NdbBool) (xs : List DataFileEntry) (f : DataFileEntry)
    (acc : Accum) :
    mergeSpec keys sel pred (xs ++ [f]) acc =
      (stepFragment keys sel pred acc f) >>= fun oa =>
        (mergeSpec keys sel pred xs oa.2) >>= fun pr =>
          Except.ok (pr.1 ++ oa.1.toList, pr.2) := by
  induction xs generalizing acc with
  | nil =>
      simp only [List.nil_append, mergeSpec]
      cases hstep : stepFragment keys sel pred acc f with
      | error e => simp [hstep]
      | ok oa => cases oa; simp [hstep, mergeSpec]
  | cons x xs ih =>
      simp only [List.cons_append, mergeSpec, List.append_eq]
      rw [ih]
      cases hstep : stepFragment keys sel pred acc f with
      | error e => simp [hstep]
      | ok oa =>
          cases oa with
          | mk o acc' =>
              simp only [hstep, exceptOkBind]
              cases hspec : mergeSpec keys sel pred xs acc' with
              | error e => simp [hspec, mergeSpec]
              | ok pr =>
                  cases pr with
                  | mk outs acc'' =>
                      simp only [hspec, mergeSpec, exceptOkBind]
                      cases hstep2 : stepFragment keys sel pred acc'' x with
                      | error e => simp [hstep2]
                      | ok q => cases q; simp [hstep2, List.append_assoc]

/-- The implementation loop over the reversed manifest computes exactly the
reference recursion, with the collected partition results reversed (newest
first). -/
theorem mergeLoop_reverse_spec (keys : Option (List String))
    (sel : Option (List String)) (pred : Option NdbBool)
    (l : List DataFileEntry) :
    ∀ (rs : List DataFrame) (acc : Accum),
    mergeLoop keys sel pred l.reverse ⟨rs, acc.seen, acc.deletes⟩ =
      (mergeSpec keys sel pred l acc).map
        (fun pr => ⟨rs ++ pr.1.reverse, pr.2.seen, pr.2.deletes⟩) := by
  induction l with
  | nil => intro rs acc; simp [mergeLoop, mergeSpec, Except.map]
  | cons x xs ih =>
      intro rs acc
      rw [List.reverse_cons, mergeLoop_append, ih]
      cases hspec : mergeSpec keys sel pred xs acc with
      | error e => simp [mergeSpec, hspec, Except.map]
      | ok pr =>
          cases pr with
          | mk outs acc' =>
              simp only [Except.map, exceptOkBind, mergeSpec, hspec, mergeLoop]
              cases hstep : stepFragment keys sel pred ⟨acc'.seen, acc'.deletes⟩ x with
              | error e => simp
              | ok oa =>
                  cases oa with
                  | mk o acc'' =>
                      simp only [exceptOkBind]
                      cases o with
                      | none => simp [mergeLoop, Except.map]
                      | some df => simp [mergeLoop, Except.map, List.append_assoc]

/-- A successful step on a non-WRITE entry emits no partition result. -/
theorem stepFragment_non_write (keys : Option (List String))
    (sel : Option (List String)) (pred : Option NdbBool) (acc : Accum)
    (f : DataFileEntry) (o : Option DataFrame) (acc2 : Accum)
    (hk : f.dataFileType ≠ "write")
    (h : stepFragment keys sel pred acc f = Except.ok (o, acc2)) : o = none := by
  unfold stepFragment at h
  rw [if_neg hk] at h
  by_cases hd : f.dataFileType = "delete"
  · rw [if_pos hd] at h
    by_cases hc : acc.deletes.rows.length > 0 ∧
        sortStrings acc.deletes.columns ≠
          sortStrings (assignIndicator f.contents).columns
    · rw [if_pos hc] at h
      cases h
    · rw [if_neg hc] at h
      simp only [Except.ok.injEq, Prod.mk.injEq] at h
      exact h.1.symm
  · rw [if_neg hd] at h
    cases h

/-- A manifest with no WRITE entries contributes no partition results. -/
theorem mergeSpec_no_writes (keys : Option (List String))
    (sel : Option (List String)) (pred : Option NdbBool)
    (l : List DataFileEntry) (h : ∀ f ∈ l, f.dataFileType ≠ "write") :
    ∀ (acc : Accum) (outs : List DataFrame) (acc' : Accum),
    mergeSpec keys sel pred l acc = Except.ok (outs, acc') → outs = [] := by
  induction l with
  | nil =>
      intro acc outs acc' hok
      simp only [mergeSpec, Except.ok.injEq, Prod.mk.injEq] at hok
      exact hok.1.symm
  | cons x xs ih =>
      intro acc outs acc' hok
      simp only [mergeSpec] at hok
      cases hspec : mergeSpec keys sel pred xs acc with
      | error e => rw [hspec] at hok; cases hok
      | ok pr =>
          cases pr with
          | mk outs1 acc1 =>
              rw [hspec] at hok
              simp only [exceptOkBind] at hok
              cases hstep : stepFragment keys sel pred acc1 x with
              | error e => rw [hstep] at hok; cases hok
              | ok q =>
                  cases q with
                  | mk o acc2 =>
                      rw [hstep] at hok
                      simp only [exceptOkBind, Except.ok.injEq,
                        Prod.mk.injEq] at hok
                      have ho : o = none := stepFragment_non_write keys sel pred
                        acc1 x o acc2 (h x (by simp)) hstep
                      have houts1 : outs1 = [] :=
                        ih (fun f hf => h f (by simp [hf])) acc outs1 acc1 hspec
                      rw [← hok.1, ho, houts1]
                      rfl

/-- C6: materialization equals the reference recursion that emits the
surviving rows of each WRITE fragment in manifest order (oldest first) —
although `to_pd` processes the manifest newest-first, it reverses the
collected partition results before concatenating — and a manifest with no
WRITE entry (in particular an empty one) can only materialize to the
shapeless empty relation. -/
theorem toPd_manifest_order (versionNumber : Int) (tableSchema : TableSchema)
    (dataList : List DataFileEntry) (ops : List Op) :
    (toPd versionNumber tableSchema dataList ops = do
      let (sel, pred) ← compilePlan versionNumber ops
      let (outs, _) ← mergeSpec tableSchema.deduplicationKeys sel pred dataList
        ⟨emptyFrame, emptyFrame⟩
      if outs.length = 0 then Except.ok emptyFrame
      else Except.ok (concatAll outs))
    ∧ ((∀ f ∈ dataList, f.dataFileType ≠ "write") →
        ∀ r, toPd versionNumber tableSchema dataList ops = Except.ok r →
          r = emptyFrame) := by
  have hmain : (toPd versionNumber tableSchema dataList ops = do
      let (sel, pred) ← compilePlan versionNumber ops
      let (outs, _) ← mergeSpec tableSchema.deduplicationKeys sel pred dataList
        ⟨emptyFrame, emptyFrame⟩
      if outs.length = 0 then Except.ok emptyFrame
      else Except.ok (concatAll outs)) := by
    unfold toPd
    cases hplan : compilePlan versionNumber ops with
    | error e => simp [hplan]
    | ok sp =>
        cases sp with
        | mk sel pred =>
            simp only [hplan, exceptOkBind]
            have := mergeLoop_reverse_spec tableSchema.deduplicationKeys sel pred
              dataList [] ⟨emptyFrame, emptyFrame⟩
            rw [this]
            cases hspec : mergeSpec tableSchema.deduplicationKeys sel pred
                dataList ⟨emptyFrame, emptyFrame⟩ with
            | error e => simp [Except.map]
            | ok pr =>
                cases pr with
                | mk outs acc' =>
                    simp only [Except.map, exceptOkBind, List.nil_append,
                      List.reverse_reverse, List.length_reverse]
  refine ⟨hmain, ?_⟩
  intro hnw r hok
  rw [hmain] at hok
  cases hplan : compilePlan versionNumber ops with
  | error e => rw [hplan] at hok; cases hok
  | ok sp =>
      cases sp with
      | mk sel pred =>
          rw [hplan] at hok
          simp only [exceptOkBind] at hok
          cases hspec : mergeSpec tableSchema.deduplicationKeys sel pred
              dataList ⟨emptyFrame, emptyFrame⟩ with
          | error e => rw [hspec] at hok; cases hok
          | ok pr =>
              cases pr with
              | mk outs acc' =>
                  rw [hspec] at hok
                  simp only [exceptOkBind] at hok
                  have houts : outs = [] := mergeSpec_no_writes
                    tableSchema.deduplicationKeys sel pred dataList hnw
                    ⟨emptyFrame, emptyFrame⟩ outs acc' hspec
                  rw [houts] at hok
                  simp only [List.length_nil, if_true, eq_self_iff_true,
                    Except.ok.injEq, reduceIte] at hok
                  exact hok.symm

/-- C6 witness: a manifest holding a single DELETE fragment has no WRITE
entry, and its materialization is the shapeless empty relation. -/
theorem toPd_manifest_order_witness :
    toPd 1 ⟨some ["id"]⟩ [⟨"delete", ⟨["id"], [[Value.int 1]]⟩⟩] []
      = Except.ok emptyFrame
    ∧ emptyFrame = emptyFrame :=
  ⟨rfl, (toPd_manifest_order 1 ⟨some ["id"]⟩ [⟨"delete", ⟨["id"], [[Value.int 1]]⟩⟩]
    []).2 (by decide) emptyFrame rfl⟩

/-- C2 counterexample: deduplication keys `["id"]`, an older WRITE row
`(id=1, v=100)` and a newer WRITE row `(id=1, v=200)` sharing the key, with
predicate `v < 150` excluding the newer row.  The claim says the newer row
still shadows the older one, making the older row absent; materialization in
fact returns the older row as its only row — the Seen accumulator is built
from the already-filtered fragment result (`df[deduplication_keys]` at
reader.py line 242). -/
theorem filtered_newer_row_shadows_counterexample :
    toPd 1 ⟨some ["id"]⟩
      [⟨"write", ⟨["id", "v"], [[Value.int 1, Value.int 100]]⟩⟩,
       ⟨"write", ⟨["id", "v"], [[Value.int 1, Value.int 200]]⟩⟩]
      [Op.selectRows (NdbBool.opArg 1 "v" "<" (PredArg.single (Value.int 150)))]
      = Except.ok ⟨["id", "v"], [[Value.int 1, Value.int 100]]⟩
    ∧ [Value.int 1, Value.int 100] ∈
        (⟨["id", "v"], [[Value.int 1, Value.int 100]]⟩ : DataFrame).rows := by
  exact ⟨rfl, by simp⟩

/-- C2 amended: Seen records only the deduplication-key projection of the
fragment *result* — the rows that survived the user predicate (and the
anti-joins) — so a newer WRITE row that fails the predicate is not recorded
in Seen and does not shadow an older row with the same key: with any
compilable predicate satisfied by the older single-row WRITE and failed by
the newer single-row WRITE sharing its key, materialization returns exactly
the older row. -/
theorem predicate_filtered_rows_not_in_seen (p : NdbBool) (w : String)
    (kv v1 v2 : Value)
    (hcl : constructWhereClause p 1 = Except.ok w)
    (hold : evalPredRow ["id", "v"] [kv, v1] p = Except.ok true)
    (hnew : evalPredRow ["id", "v"] [kv, v2] p = Except.ok false) :
    toPd 1 ⟨some ["id"]⟩
      [⟨"write", ⟨["id", "v"], [[kv, v1]]⟩⟩,
       ⟨"write", ⟨["id", "v"], [[kv, v2]]⟩⟩]
      [Op.selectRows p]
      = Except.ok ⟨["id", "v"], [[kv, v1]]⟩ := by
  simp [toPd, compilePlan, columnArgs, rowArgs, foldColumns, hcl,
    mergeLoop, stepFragment, runWriteQuery, writeQueryJoinedRows, filterRows,
    filterRowsGo, hold, hnew, projectFrame, selectColumnsPd, colIndices,
    colIndex, assignIndicator, pdConcat, reindexRow, concatAll, emptyFrame,
    indicatorColumnName, List.findIdx?, exceptOkBind]

/-- C2 amended witness: the concrete instance with key 1, older value 100,
newer value 200 and predicate `v < 150`. -/
theorem predicate_filtered_rows_not_in_seen_witness :
    toPd 1 ⟨some ["id"]⟩
      [⟨"write", ⟨["id", "v"], [[Value.int 1, Value.int 100]]⟩⟩,
       ⟨"write", ⟨["id", "v"], [[Value.int 1, Value.int 250]]⟩⟩]
      [Op.selectRows (NdbBool.opArg 1 "v" "<" (PredArg.single (Value.int 150)))]
      = Except.ok ⟨["id", "v"], [[Value.int 1, Value.int 100]]⟩ :=
  predicate_filtered_rows_not_in_seen
    (NdbBool.opArg 1 "v" "<" (PredArg.single (Value.int 150))) _
    (Value.int 1) (Value.int 100) (Value.int 250) rfl rfl rfl

/-- Number of WRITE entries in a manifest. -/
def writeCount (l : List DataFileEntry) : Nat :=
  (l.filter fun f => f.dataFileType = "write").length

/-- C3 counterexample: two one-row WRITEs with deduplication keys present but
empty.  After the newer WRITE, Seen holds one indicator-only row, so the older
WRITE's query joins Seen on an empty column conjunction — a malformed query —
while the same manifest with no deduplication keys materializes both rows. -/
theorem empty_dedup_keys_counterexample :
    toPd 1 ⟨some []⟩
      [⟨"write", ⟨["id"], [[Value.int 5]]⟩⟩, ⟨"write", ⟨["id"], [[Value.int 7]]⟩⟩]
      [] = Except.error Err.malformedQuery
    ∧ toPd 1 ⟨none⟩
      [⟨"write", ⟨["id"], [[Value.int 5]]⟩⟩, ⟨"write", ⟨["id"], [[Value.int 7]]⟩⟩]
      [] = Except.ok ⟨["id"], [[Value.int 5], [Value.int 7]]⟩ := by
  exact ⟨rfl, rfl⟩

/-- With an empty Seen accumulator the per-fragment WRITE query never touches
the deduplication keys. -/
theorem runWriteQuery_seen_no_rows (keysA keysB : Option (List String))
    (sel : Option (List String)) (pred : Option NdbBool)
    (seen deletes frag : DataFrame) (hseen : seen.rows = []) :
    runWriteQuery keysA sel pred seen deletes frag =
      runWriteQuery keysB sel pred seen deletes frag := by
  unfold runWriteQuery writeQueryJoinedRows
  rw [hseen]
  simp only [List.length_nil, reduceIte]

/-- Unfolding of a WRITE step. -/
theorem stepFragment_write_eq (keys : Option (List String))
    (sel : Option (List String)) (pred : Option NdbBool)
    (seen dels : DataFrame) (x : DataFileEntry)
    (hw : x.dataFileType = "write") :
    stepFragment keys sel pred ⟨seen, dels⟩ x = (do
      let df ← runWriteQuery keys sel pred seen dels x.contents
      match keys with
      | none => Except.ok (some df, ⟨seen, dels⟩)
      | some ks => do
          let kdf ← selectColumnsPd df ks
          Except.ok (some df, ⟨pdConcat seen (assignIndicator kdf), dels⟩)) := by
  unfold stepFragment
  rw [if_pos hw]

/-- Unfolding of a DELETE step. -/
theorem stepFragment_delete_eq (keys : Option (List String))
    (sel : Option (List String)) (pred : Option NdbBool)
    (seen dels : DataFrame) (x : DataFileEntry)
    (hd : x.dataFileType = "delete") :
    stepFragment keys sel pred ⟨seen, dels⟩ x =
      if dels.rows.length > 0 ∧ sortStrings dels.columns ≠
          sortStrings (assignIndicator x.contents).columns then
        Except.error Err.heterogeneousDeletes
      else
        Except.ok (none, ⟨seen, pdConcat dels (assignIndicator x.contents)⟩) := by
  unfold stepFragment
  rw [if_neg (by rw [hd]; decide), if_pos hd]

/-- Unfolding of a step on an unknown fragment kind. -/
theorem stepFragment_unknown_eq (keys : Option (List String))
    (sel : Option (List String)) (pred : Option NdbBool) (acc : Accum)
    (x : DataFileEntry) (hw : x.dataFileType ≠ "write")
    (hd : x.dataFileType ≠ "delete") :
    stepFragment keys sel pred acc x =
      Except.error (Err.unknownFragmentKind x.dataFileType) := by
  unfold stepFragment
  rw [if_neg hw, if_neg hd]

/-- On a manifest slice with no WRITE entries the loop's partition results
and delete accumulator do not depend on the deduplication keys or on the
Seen accumulator (Seen is only read and written by WRITE processing). -/
theorem mergeLoop_no_writes_keys_seen (sel : Option (List String))
    (pred : Option NdbBool) (l : List DataFileEntry)
    (h : ∀ f ∈ l, f.dataFileType ≠ "write") :
    ∀ (keysA keysB : Option (List String)) (rs : List DataFrame)
      (seenA seenB dels : DataFrame),
    (mergeLoop keysA sel pred l ⟨rs, seenA, dels⟩).map
        (fun st => (st.results, st.deletes))
      = (mergeLoop keysB sel pred l ⟨rs, seenB, dels⟩).map
          (fun st => (st.results, st.deletes)) := by
  induction l with
  | nil =>
      intro keysA keysB rs seenA seenB dels
      simp [mergeLoop, Except.map]
  | cons x xs ih =>
      intro keysA keysB rs seenA seenB dels
      have hx := h x (by simp)
      simp only [mergeLoop]
      by_cases hd : x.dataFileType = "delete"
      · rw [stepFragment_delete_eq keysA sel pred seenA dels x hd,
          stepFragment_delete_eq keysB sel pred seenB dels x hd]
        by_cases hc : dels.rows.length > 0 ∧
            sortStrings dels.columns ≠
              sortStrings (assignIndicator x.contents).columns
        · rw [if_pos hc, if_pos hc]
          simp [Except.map]
        · rw [if_neg hc, if_neg hc]
          simp only [exceptOkBind]
          exact ih (fun f hf => h f (by simp [hf])) keysA keysB rs seenA seenB
            (pdConcat dels (assignIndicator x.contents))
      · rw [stepFragment_unknown_eq keysA sel pred ⟨seenA, dels⟩ x hx hd,
          stepFragment_unknown_eq keysB sel pred ⟨seenB, dels⟩ x hx hd]
        simp [Except.map]

/-- On a manifest slice with at most one WRITE entry, starting from an empty
Seen accumulator, materializing with an empty deduplication-key list and
with absent keys produce the same partition results and delete accumulator:
Seen can only become non-empty after the single WRITE, and no later entry
reads it. -/
theorem mergeLoop_empty_keys_le_one_write (sel : Option (List String))
    (pred : Option NdbBool) (l : List DataFileEntry) (h : writeCount l ≤ 1) :
    ∀ (rs : List DataFrame) (seen dels : DataFrame), seen.rows = [] →
    (mergeLoop (some []) sel pred l ⟨rs, seen, dels⟩).map
        (fun st => (st.results, st.deletes))
      = (mergeLoop none sel pred l ⟨rs, seen, dels⟩).map
          (fun st => (st.results, st.deletes)) := by
  induction l with
  | nil =>
      intro rs seen dels hseen
      simp [mergeLoop]
  | cons x xs ih =>
      intro rs seen dels hseen
      by_cases hw : x.dataFileType = "write"
      · have hxs : ∀ f ∈ xs, f.dataFileType ≠ "write" := by
          intro f hf
          have hcount : writeCount (x :: xs) = writeCount xs + 1 := by
            simp [writeCount, List.filter_cons, hw]
          have hzero : writeCount xs = 0 := by omega
          intro hfw
          have hmem : f ∈ xs.filter fun g => g.dataFileType = "write" := by
            rw [List.mem_filter]
            exact ⟨hf, by simp [hfw]⟩
          have hne : xs.filter (fun g => g.dataFileType = "write") ≠ [] := by
            intro hnil
            rw [hnil] at hmem
            cases hmem
          have hpos : 0 < writeCount xs := by
            simp only [writeCount]
            exact List.length_pos.mpr hne
          omega
        simp only [mergeLoop]
        rw [stepFragment_write_eq (some []) sel pred seen dels x hw,
          stepFragment_write_eq none sel pred seen dels x hw]
        rw [runWriteQuery_seen_no_rows (some []) none sel pred seen dels
          x.contents hseen]
        cases hq : runWriteQuery none sel pred seen dels x.contents with
        | error e => simp [Except.map]
        | ok df =>
            simp only [exceptOkBind, selectColumnsPd, colIndices,
              List.map_nil, exceptOkBind]
            exact mergeLoop_no_writes_keys_seen sel pred xs hxs (some []) none
              (rs ++ [df])
              (pdConcat seen (assignIndicator ⟨[], df.rows.map fun _ => []⟩))
              seen dels
      · have hcount : writeCount xs ≤ 1 := by
          have heq : writeCount (x :: xs) = writeCount xs := by
            simp [writeCount, List.filter_cons, hw]
          omega
        simp only [mergeLoop]
        by_cases hd : x.dataFileType = "delete"
        · rw [stepFragment_delete_eq (some []) sel pred seen dels x hd,
            stepFragment_delete_eq none sel pred seen dels x hd]
          by_cases hc : dels.rows.length > 0 ∧
              sortStrings dels.columns ≠
                sortStrings (assignIndicator x.contents).columns
          · rw [if_pos hc]
            simp [Except.map]
          · rw [if_neg hc]
            simp only [exceptOkBind]
            exact ih hcount rs seen (pdConcat dels (assignIndicator x.contents))
              hseen
        · rw [stepFragment_unknown_eq (some []) sel pred ⟨seen, dels⟩ x hw hd,
            stepFragment_unknown_eq none sel pred ⟨seen, dels⟩ x hw hd]
          simp [Except.map]

/-- C3 amended: a present-but-empty deduplication-key list is treated like
absent keys only while no second WRITE can observe the Seen accumulator — on
every manifest with at most one WRITE entry the two materializations agree
(the counterexample shows they diverge once a WRITE with rows precedes
another WRITE). -/
theorem empty_dedup_keys_at_most_one_write (vers : Int)
    (dl : List DataFileEntry) (ops : List Op) (h : writeCount dl ≤ 1) :
    toPd vers ⟨some []⟩ dl ops = toPd vers ⟨none⟩ dl ops := by
  unfold toPd
  cases hplan : compilePlan vers ops with
  | error e => rfl
  | ok sp =>
      cases sp with
      | mk sel pred =>
          simp only [exceptOkBind]
          have hcount : writeCount dl.reverse ≤ 1 := by
            simpa [writeCount, List.filter_reverse] using h
          have hmaps := mergeLoop_empty_keys_le_one_write sel pred dl.reverse
            hcount [] emptyFrame emptyFrame rfl
          cases hA : mergeLoop (some []) sel pred dl.reverse
              ⟨[], emptyFrame, emptyFrame⟩ with
          | error e =>
              cases hB : mergeLoop none sel pred dl.reverse
                  ⟨[], emptyFrame, emptyFrame⟩ with
              | error e' =>
                  rw [hA, hB] at hmaps
                  simp only [Except.map, Except.error.injEq] at hmaps
                  rw [hmaps]
              | ok stB =>
                  rw [hA, hB] at hmaps
                  simp [Except.map] at hmaps
          | ok stA =>
              cases hB : mergeLoop none sel pred dl.reverse
                  ⟨[], emptyFrame, emptyFrame⟩ with
              | error e' =>
                  rw [hA, hB] at hmaps
                  simp [Except.map] at hmaps
              | ok stB =>
                  rw [hA, hB] at hmaps
                  simp only [Except.map, Except.ok.injEq, Prod.mk.injEq] at hmaps
                  simp only [exceptOkBind, hmaps.1]

/-- C3 amended witness: a manifest with one WRITE and one DELETE agrees
between the empty-keys and no-keys schemas. -/
theorem empty_dedup_keys_at_most_one_write_witness :
    toPd 1 ⟨some []⟩
      [⟨"write", ⟨["id"], [[Value.int 5]]⟩⟩, ⟨"delete", ⟨["id"], [[Value.int 5]]⟩⟩]
      [] = toPd 1 ⟨none⟩
      [⟨"write", ⟨["id"], [[Value.int 5]]⟩⟩, ⟨"delete", ⟨["id"], [[Value.int 5]]⟩⟩]
      [] :=
  empty_dedup_keys_at_most_one_write 1
    [⟨"write", ⟨["id"], [[Value.int 5]]⟩⟩, ⟨"delete", ⟨["id"], [[Value.int 5]]⟩⟩]
    [] (by decide)

/-- C8 counterexample: a manifest whose newer DELETE fragment has zero rows
and columns `["a"]` followed (older) by a DELETE with columns `["b"]`.  The
column sets differ as multisets, yet materialization succeeds: the check at
reader.py line 257 is guarded by `len(deletes) > 0`, which counts accumulated
rows, and the zero-row fragment leaves it at zero. -/
theorem heterogeneous_deletes_skipped_counterexample :
    toPd 1 ⟨none⟩ [⟨"delete", ⟨["b"], [[Value.int 5]]⟩⟩, ⟨"delete", ⟨["a"], []⟩⟩] []
      = Except.ok emptyFrame
    ∧ sortStrings (assignIndicator ⟨["b"], [[Value.int 5]]⟩).columns
      ≠ sortStrings (assignIndicator ⟨["a"], []⟩).columns := by
  exact ⟨rfl, by decide⟩

/-- The code-point order is total. -/
theorem charListLeB_total : ∀ as bs : List Char,
    charListLeB as bs = true ∨ charListLeB bs as = true
  | [], _ => Or.inl rfl
  | _ :: _, [] => Or.inr rfl
  | a :: as, b :: bs => by
      by_cases h1 : a.val.toNat < b.val.toNat
      · left
        simp [charListLeB, h1]
      · by_cases h2 : b.val.toNat < a.val.toNat
        · right
          simp [charListLeB, h2]
        · rcases charListLeB_total as bs with h | h
          · left
            simp [charListLeB, h1, h2, h]
          · right
            simp [charListLeB, h1, h2, h]

/-- The code-point order is transitive. -/
theorem charListLeB_trans : ∀ as bs cs : List Char,
    charListLeB as bs = true → charListLeB bs cs = true →
      charListLeB as cs = true
  | [], _, _ => by
      intro _ _
      rfl
  | _ :: _, [], _ => by
      intro h _
      cases h
  | _ :: _, _ :: _, [] => by
      intro _ h
      cases h
  | a :: as, b :: bs, c :: cs => by
      intro h1 h2
      simp only [charListLeB] at h1 h2 ⊢
      by_cases hab : a.val.toNat < b.val.toNat
      · by_cases hbc : b.val.toNat < c.val.toNat
        · simp [show a.val.toNat < c.val.toNat by omega]
        · by_cases hcb : c.val.toNat < b.val.toNat
          · simp [hbc, hcb] at h2
          · simp [show a.val.toNat < c.val.toNat by omega]
      · by_cases hba : b.val.toNat < a.val.toNat
        · simp [hab, hba] at h1
        · by_cases hbc : b.val.toNat < c.val.toNat
          · simp [show a.val.toNat < c.val.toNat by omega]
          · by_cases hcb : c.val.toNat < b.val.toNat
            · simp [hbc, hcb] at h2
            · have hac1 : ¬ a.val.toNat < c.val.toNat := by omega
              have hac2 : ¬ c.val.toNat < a.val.toNat := by omega
              simp only [hab, hba, if_neg hab, if_neg hba] at h1
              simp only [if_neg hbc, if_neg hcb] at h2
              simp only [if_neg hac1, if_neg hac2]
              exact charListLeB_trans as bs cs h1 h2

/-- The code-point order is antisymmetric. -/
theorem charListLeB_antisymm : ∀ as bs : List Char,
    charListLeB as bs = true → charListLeB bs as = true → as = bs
  | [], [] => by
      intro _ _
      rfl
  | [], _ :: _ => by
      intro _ h2
      cases h2
  | _ :: _, [] => by
      intro h1 _
      cases h1
  | a :: as, b :: bs => by
      intro h1 h2
      by_cases hab : a.val.toNat < b.val.toNat
      · exfalso
        have hba : ¬ b.val.toNat < a.val.toNat := by omega
        simp [charListLeB, hab, hba] at h2
      · by_cases hba : b.val.toNat < a.val.toNat
        · exfalso
          simp [charListLeB, hab, hba] at h1
        · have hv : a.val.toNat = b.val.toNat := by omega
          have hchar : a = b := by
            apply Char.ext
            apply UInt32.toNat.inj
            exact hv
          have h1' : charListLeB as bs = true := by
            simpa [charListLeB, hab, hba] using h1
          have h2' : charListLeB bs as = true := by
            simpa [charListLeB, hab, hba] using h2
          rw [hchar, charListLeB_antisymm as bs h1' h2']

instance : IsTotal String fun a b => strLeB a b = true :=
  ⟨fun a b => charListLeB_total a.data b.data⟩

instance : IsTrans String fun a b => strLeB a b = true :=
  ⟨fun a b c => charListLeB_trans a.data b.data c.data⟩

instance : IsAntisymm String fun a b => strLeB a b = true :=
  ⟨fun a b h1 h2 => String.ext (charListLeB_antisymm a.data b.data h1 h2)⟩

/-- Sorting column names is invariant under permutation. -/
theorem sortStrings_perm (l1 l2 : List String) (h : l1.Perm l2) :
    sortStrings l1 = sortStrings l2 := by
  unfold sortStrings
  refine List.eq_of_perm_of_sorted ?_ (List.sorted_insertionSort _ l1)
    (List.sorted_insertionSort _ l2)
  exact ((l1.perm_insertionSort _).trans h).trans
    (l2.perm_insertionSort _).symm

/-- C8 amended: the column-multiset check compares the new DELETE fragment
(with its indicator column) against the accumulated deletes, but only when
the accumulator already holds at least one row.  Under that hypothesis a
DELETE step fails with the heterogeneous-deletes error exactly when the
sorted column lists differ — in particular the same names in a different
order never fail.  (The counterexample shows the check is silently skipped
while the accumulated delete rows are empty.) -/
theorem heterogeneous_deletes_iff_sorted_columns_differ
    (keys : Option (List String)) (sel : Option (List String))
    (pred : Option NdbBool) (acc : Accum) (f : DataFrame)
    (hrows : acc.deletes.rows ≠ []) :
    (stepFragment keys sel pred acc ⟨"delete", f⟩
        = Except.error Err.heterogeneousDeletes
      ↔ sortStrings acc.deletes.columns ≠ sortStrings (assignIndicator f).columns)
    ∧ ((assignIndicator f).columns.Perm acc.deletes.columns →
        stepFragment keys sel pred acc ⟨"delete", f⟩
          = Except.ok (none, ⟨acc.seen,
              pdConcat acc.deletes (assignIndicator f)⟩)) := by
  have hdel := stepFragment_delete_eq keys sel pred acc.seen acc.deletes
    ⟨"delete", f⟩ rfl
  have hlen : acc.deletes.rows.length > 0 := List.length_pos.mpr hrows
  rw [hdel]
  by_cases hs : sortStrings acc.deletes.columns
      = sortStrings (assignIndicator f).columns
  · rw [if_neg (by simp [hs])]
    constructor
    · constructor
      · intro hcontr
        cases hcontr
      · intro hne
        exact absurd hs hne
    · intro _
      rfl
  · rw [if_pos ⟨hlen, hs⟩]
    constructor
    · constructor
      · intro _
        exact hs
      · intro _
        rfl
    · intro hperm
      exact absurd (sortStrings_perm _ _ hperm).symm hs

/-- C8 amended witness: with one accumulated delete row over columns
`["a", indicator]`, a DELETE fragment with the same columns passes the check
and is concatenated. -/
theorem heterogeneous_deletes_iff_sorted_columns_differ_witness :
    stepFragment none none none
      ⟨emptyFrame, ⟨["a", indicatorColumnName], [[Value.int 1, Value.int 1]]⟩⟩
      ⟨"delete", ⟨["a"], [[Value.int 2]]⟩⟩
      = Except.ok (none, ⟨emptyFrame,
          pdConcat ⟨["a", indicatorColumnName], [[Value.int 1, Value.int 1]]⟩
            (assignIndicator ⟨["a"], [[Value.int 2]]⟩)⟩) :=
  (heterogeneous_deletes_iff_sorted_columns_differ none none none
    ⟨emptyFrame, ⟨["a", indicatorColumnName], [[Value.int 1, Value.int 1]]⟩⟩
    ⟨["a"], [[Value.int 2]]⟩ (by decide)).2 (by decide)

/-- Destructuring a successful bind. -/
theorem exceptBind_ok_ex {ε α β : Type} (x : Except ε α) (f : α → Except ε β)
    (b : β) (h : x >>= f = Except.ok b) :
    ∃ a, x = Except.ok a ∧ f a = Except.ok b := by
  cases x with
  | error e => cases h
  | ok a => exact ⟨a, rfl, h⟩

/-- An absent column has no index. -/
theorem colIndex_eq_none (cols : List String) (k : String) (h : ¬ k ∈ cols) :
    colIndex cols k = none := by
  induction cols with
  | nil => rfl
  | cons c rest ih =>
      simp only [List.mem_cons, not_or] at h
      simp [colIndex, if_neg (Ne.symm h.1), ih h.2]

/-- Looking up the indices of a list containing an absent column fails. -/
theorem colIndices_missing (cols : List String) :
    ∀ (ks : List String) (k : String), k ∈ ks → colIndex cols k = none →
    ∃ e, colIndices cols ks = Except.error e := by
  intro ks
  induction ks with
  | nil =>
      intro k hk
      cases hk
  | cons c ks ih =>
      intro k hk hmiss
      cases hcol : colIndex cols c with
      | none => exact ⟨Err.missingColumn c, by simp [colIndices, hcol]⟩
      | some i =>
          rcases List.mem_cons.mp hk with rfl | hk2
          · rw [hcol] at hmiss
            cases hmiss
          · obtain ⟨e, he⟩ := ih k hk2 hmiss
            exact ⟨e, by simp [colIndices, hcol, he]⟩

/-- A successful projection onto an explicit column list has exactly those
columns. -/
theorem projectFrame_some_columns (cs cols : List String)
    (rows : List (List Value)) (df : DataFrame)
    (h : projectFrame (some cs) cols rows = Except.ok df) : df.columns = cs := by
  simp only [projectFrame] at h
  cases hidx : colIndices cols cs with
  | error e =>
      rw [hidx] at h
      cases h
  | ok idxs =>
      rw [hidx] at h
      simp only [exceptOkBind, Except.ok.injEq] at h
      rw [← h]

/-- A successful WRITE query with an explicit projection returns a frame
with exactly the projected columns. -/
theorem runWriteQuery_some_columns (keys : Option (List String))
    (cs : List String) (pred : Option NdbBool) (seen dels frag : DataFrame)
    (df : DataFrame)
    (h : runWriteQuery keys (some cs) pred seen dels frag = Except.ok df) :
    df.columns = cs := by
  unfold runWriteQuery at h
  obtain ⟨rows1, _, h⟩ := exceptBind_ok_ex _ _ _ h
  obtain ⟨rows2, _, h⟩ := exceptBind_ok_ex _ _ _ h
  exact projectFrame_some_columns cs frag.columns rows2 df h

/-- Processing a WRITE fragment errors whenever a deduplication key is
missing from the projected columns: either the query itself fails, or the
Seen update `df[deduplication_keys]` fails on the missing key. -/
theorem stepFragment_write_key_dropped (ks cs : List String)
    (pred : Option NdbBool) (seen dels : DataFrame) (x : DataFileEntry)
    (k : String) (hw : x.dataFileType = "write") (hk : k ∈ ks)
    (hkc : ¬ k ∈ cs) :
    ∃ e, stepFragment (some ks) (some cs) pred ⟨seen, dels⟩ x
      = Except.error e := by
  rw [stepFragment_write_eq (some ks) (some cs) pred seen dels x hw]
  cases hq : runWriteQuery (some ks) (some cs) pred seen dels x.contents with
  | error e => exact ⟨e, by simp⟩
  | ok df =>
      have hcols : df.columns = cs :=
        runWriteQuery_some_columns (some ks) cs pred seen dels x.contents df hq
      have hmiss : colIndex df.columns k = none := by
        rw [hcols]
        exact colIndex_eq_none cs k hkc
      obtain ⟨e, he⟩ := colIndices_missing df.columns ks k hk hmiss
      refine ⟨e, ?_⟩
      simp [selectColumnsPd, he]

/-- The materialize loop fails as soon as it reaches a WRITE fragment when a
deduplication key is missing from the projected columns. -/
theorem mergeLoop_write_key_dropped (ks cs : List String)
    (pred : Option NdbBool) (k : String) (hk : k ∈ ks) (hkc : ¬ k ∈ cs) :
    ∀ (l : List DataFileEntry), (∃ f ∈ l, f.dataFileType = "write") →
    ∀ st, ∃ e, mergeLoop (some ks) (some cs) pred l st = Except.error e := by
  intro l
  induction l with
  | nil =>
      intro hex st
      obtain ⟨f, hf, _⟩ := hex
      cases hf
  | cons x xs ih =>
      intro hex st
      simp only [mergeLoop]
      by_cases hw : x.dataFileType = "write"
      · obtain ⟨e, he⟩ := stepFragment_write_key_dropped ks cs pred st.seen
          st.deletes x k hw hk hkc
        exact ⟨e, by simp [he]⟩
      · cases hstep : stepFragment (some ks) (some cs) pred
            ⟨st.seen, st.deletes⟩ x with
        | error e => exact ⟨e, by simp⟩
        | ok oa =>
            cases oa with
            | mk o acc' =>
                have hexs : ∃ f ∈ xs, f.dataFileType = "write" := by
                  obtain ⟨f, hf, hfw⟩ := hex
                  rcases List.mem_cons.mp hf with rfl | hf2
                  · exact absurd hfw hw
                  · exact ⟨f, hf2, hfw⟩
                cases o with
                | none =>
                    obtain ⟨e, he⟩ := ih hexs
                      ⟨st.results, acc'.seen, acc'.deletes⟩
                    exact ⟨e, by simp [hstep, he]⟩
                | some df =>
                    obtain ⟨e, he⟩ := ih hexs
                      ⟨st.results ++ [df], acc'.seen, acc'.deletes⟩
                    exact ⟨e, by simp [hstep, he]⟩

/-- C10: with a non-empty deduplication-key set and a projection whose final
column set omits one of the keys, materializing any manifest containing a
WRITE fragment raises an error: each fragment result is projected to the
final columns, and the Seen update selects the key columns from it, which
fails on the missing key (when the fragment query itself has not already
failed). -/
theorem dedup_key_dropped_by_projection_errors (vers : Int)
    (ks cs : List String) (k : String) (dl : List DataFileEntry)
    (ops : List Op)
    (hsel : foldColumns (columnArgs ops) = Except.ok (some cs))
    (hk : k ∈ ks) (hkc : ¬ k ∈ cs)
    (hw : ∃ f ∈ dl, f.dataFileType = "write") :
    ∃ e, toPd vers ⟨some ks⟩ dl ops = Except.error e := by
  unfold toPd
  cases hplan : compilePlan vers ops with
  | error e => exact ⟨e, by simp⟩
  | ok sp =>
      cases sp with
      | mk sel pred =>
          have hselc : sel = some cs := by
            unfold compilePlan at hplan
            rw [hsel] at hplan
            simp only [exceptOkBind] at hplan
            cases hrow : rowArgs ops with
            | nil =>
                rw [hrow] at hplan
                simp only [Except.ok.injEq, Prod.mk.injEq] at hplan
                exact hplan.1.symm
            | cons r rest =>
                rw [hrow] at hplan
                dsimp only at hplan
                cases hcl : constructWhereClause r vers with
                | error e =>
                    rw [hcl] at hplan
                    cases hplan
                | ok w =>
                    rw [hcl] at hplan
                    simp only [exceptOkBind, Except.ok.injEq,
                      Prod.mk.injEq] at hplan
                    exact hplan.1.symm
          subst hselc
          have hwrev : ∃ f ∈ dl.reverse, f.dataFileType = "write" := by
            obtain ⟨f, hf, hfw⟩ := hw
            exact ⟨f, List.mem_reverse.mpr hf, hfw⟩
          obtain ⟨e, he⟩ := mergeLoop_write_key_dropped ks cs pred k hk hkc
            dl.reverse hwrev ⟨[], emptyFrame, emptyFrame⟩
          exact ⟨e, by simp [he]⟩

/-- C10 witness: keys `["id"]`, projection `["v"]`, a one-WRITE manifest. -/
theorem dedup_key_dropped_by_projection_errors_witness :
    foldColumns (columnArgs [Op.selectColumns ["v"]]) = Except.ok (some ["v"])
    ∧ ∃ e, toPd 1 ⟨some ["id"]⟩
        [⟨"write", ⟨["id", "v"], [[Value.int 1, Value.int 2]]⟩⟩]
        [Op.selectColumns ["v"]] = Except.error e :=
  ⟨rfl, dedup_key_dropped_by_projection_errors 1 ["id"] ["v"] "id"
    [⟨"write", ⟨["id", "v"], [[Value.int 1, Value.int 2]]⟩⟩]
    [Op.selectColumns ["v"]] rfl (by decide) (by decide)
    ⟨⟨"write", ⟨["id", "v"], [[Value.int 1, Value.int 2]]⟩⟩, by simp, rfl⟩⟩
